import Mathlib

/-!
Formal model of the FLORES-200 DataPipes recipe notebook
(python/mlcroissant/recipes/flores200_datapipes.ipynb).

Records, pipeline stages, the label dictionary, the train/test loops and the
epoch driver are embedded as executable Lean functions.  Python floats are
modelled as rationals, Python runtime exceptions as an error type threaded
through Except, and the external collaborators (model, criterion, optimizer,
tokenizer, the torchdata stage internals) as function parameters or as
definitions modelled from the spec where noted.
-/

namespace Flores

/-- Python runtime errors that the notebook's glue code can raise:
ZeroDivisionError from the running-mean divisions, TypeError from unpacking
or formatting None, KeyError from the label-dictionary lookup. -/
inductive PyError where
  | zeroDivision
  | typeError
  | keyError (key : String)
  deriving Repr, DecidableEq

/-- A record yielded by the dataset adapter for the FLORES record sets: a
mapping with a translation field and a language field, both decoded to text
per the declared specification. -/
structure Record where
  translation : String
  language : String
  deriving Repr, DecidableEq

/-! ## The label dictionary (classes_to_int / int_to_classes cell) -/

/-- The expression sorted(set(x["language"] for x in train_data_pipe)) of the
classes_to_int cell: the distinct language labels of the training pipe in
sorted order. -/
def sortedClasses (train_data_pipe : List Record) : List String :=
  ((train_data_pipe.map Record.language).dedup).insertionSort (· ≤ ·)

/-- A Python dict built by a comprehension over enumerate(ys, k): the
association list pairing each element with its position. -/
def enumAList : ℕ → List String → List (String × ℕ)
  | _, [] => []
  | k, y :: ys => (y, k) :: enumAList (k + 1) ys

/-- The dict classes_to_int: each distinct training language label, in sorted
order, mapped to its enumeration index. -/
def classes_to_int (train_data_pipe : List Record) : List (String × ℕ) :=
  enumAList 0 (sortedClasses train_data_pipe)

/-- The dict int_to_classes: the pairs of classes_to_int swapped. -/
def int_to_classes (train_data_pipe : List Record) : List (ℕ × String) :=
  (classes_to_int train_data_pipe).map (fun p => (p.2, p.1))

/-! ## Tokenization and unpack_row -/

/-- Modelled from the spec: the tokenizer is an external collaborator; this
is the effect unpack_row requests from it, namely padding="max_length" and
truncation=True — the sequence is truncated to max_length tokens and padded
with the pad value up to max_length. -/
def padTruncate (maxLen : ℕ) (pad : ℕ) (ids : List ℕ) : List ℕ :=
  ids.take maxLen ++ List.replicate (maxLen - (ids.take maxLen).length) pad

/-- The mapping returned by unpack_row: the three flattened token tensors and
the integer target. -/
structure TokenizedRow where
  input_ids : List ℕ
  attention_mask : List ℕ
  token_type_ids : List ℕ
  targets : ℕ
  deriving Repr, DecidableEq

/-- The per-record map function unpack_row.  Modelled from the spec: the
Hugging Face BertTokenizer is an external collaborator not in this repository;
its raw token sequence for a string is abstracted as the argument tok, and the
padding and truncation that unpack_row requests from it are applied on top.
The targets lookup classes_to_int[x["language"]] raises KeyError when the
language was not seen in the training pipe. -/
def unpack_row (tok : String → List ℕ) (train_data_pipe : List Record)
    (MAX_LENGTH : ℕ) (x : Record) : Except PyError TokenizedRow :=
  let ids := tok x.translation
  match List.lookup x.language (classes_to_int train_data_pipe) with
  | none => .error (.keyError x.language)
  | some t =>
    .ok { input_ids := padTruncate MAX_LENGTH 0 ids,
          attention_mask := padTruncate MAX_LENGTH 0 (List.replicate ids.length 1),
          token_type_ids := padTruncate MAX_LENGTH 0 (List.replicate ids.length 0),
          targets := t }

/-! ## Pipeline stages

The stage internals live in torchdata, an external collaborator; the stages
are modelled from the spec (section 4.2) and instantiated with the notebook's
arguments in get_train_dataset / get_test_dataset below. -/

/-- Modelled from the spec: the map stage (torchdata .map, external) applies
the function to each record; a failure inside the function propagates and
aborts iteration with no partial-result recovery. -/
def mapStage (f : α → Except PyError γ) : List α → Except PyError (List γ)
  | [] => .ok []
  | x :: xs =>
    match f x with
    | .error e => .error e
    | .ok y =>
      match mapStage f xs with
      | .error e => .error e
      | .ok ys => .ok (y :: ys)

/-- Modelled from the spec: the shard-filter stage (torchdata
.sharding_filter, external) partitions the sequence across parallel workers
deterministically by position, each element routed to exactly one worker, and
is a pass-through for zero or one worker.  The spec leaves the deterministic
policy open; round-robin by position is fixed here. -/
def sharding_filter (numWorkers workerId : ℕ) (l : List α) : List α :=
  (l.enum.filter (fun p => p.1 % max numWorkers 1 == workerId)).map Prod.snd

/-- Modelled from the spec: final drain of the shuffle buffer, repeatedly
emitting a pseudo-randomly chosen element.  rng k is the k-th pseudo-random
draw; the fuel always starts at the buffer length, which the recursion
decreases in lockstep with, so it never runs out. -/
def shuffleDrain (rng : ℕ → ℕ) : ℕ → ℕ → List α → List α
  | 0, _, _ => []
  | _ + 1, _, [] => []
  | fuel + 1, k, b :: bs =>
    let buf := b :: bs
    let i := rng k % buf.length
    buf.getD i b :: shuffleDrain rng fuel (k + 1) (buf.eraseIdx i)

/-- Modelled from the spec: the steady state of the shuffle stage (torchdata
.shuffle, external): while the source yields elements, emit one pseudo-random
buffered element and refill the buffer with the pulled element; at source
exhaustion drain the buffer. -/
def shuffleEmit (rng : ℕ → ℕ) : List α → ℕ → List α → List α
  | [], k, buf => shuffleDrain rng buf.length k buf
  | x :: xs, k, [] => x :: shuffleEmit rng xs (k + 1) []
  | x :: xs, k, b :: bs =>
    let buf := b :: bs
    let i := rng k % buf.length
    buf.getD i b :: shuffleEmit rng xs (k + 1) ((buf.eraseIdx i).concat x)

/-- Modelled from the spec: the bounded-buffer shuffle stage; the buffer is
first filled to capacity from the source. -/
def shuffle (buffer_size : ℕ) (rng : ℕ → ℕ) (l : List α) : List α :=
  shuffleEmit rng (l.drop buffer_size) 0 (l.take buffer_size)

/-- get_train_dataset of the notebook: the train DataPipe composed with
shuffle(buffer_size=10000), then sharding_filter(), then map(unpack_row). -/
def get_train_dataset (rng : ℕ → ℕ) (numWorkers workerId : ℕ)
    (tok : String → List ℕ) (MAX_LENGTH : ℕ)
    (train_data_pipe : List Record) : Except PyError (List TokenizedRow) :=
  let train_dataset := train_data_pipe
  let train_dataset := shuffle 10000 rng train_dataset
  let train_dataset := sharding_filter numWorkers workerId train_dataset
  mapStage (unpack_row tok train_data_pipe MAX_LENGTH) train_dataset

/-- get_test_dataset of the notebook: the test DataPipe composed with
sharding_filter(), then map(unpack_row); no shuffle. -/
def get_test_dataset (numWorkers workerId : ℕ)
    (tok : String → List ℕ) (MAX_LENGTH : ℕ) (train_data_pipe : List Record)
    (test_data_pipe : List Record) : Except PyError (List TokenizedRow) :=
  let test_dataset := test_data_pipe
  let test_dataset := sharding_filter numWorkers workerId test_dataset
  mapStage (unpack_row tok train_data_pipe MAX_LENGTH) test_dataset

/-- The training pipeline as the spec (section 4.2) words it: the adapter
sequence composed with the stages in the fixed order shuffle, then
shard-filter, then per-record map. -/
def specTrainPipeline (rng : ℕ → ℕ) (numWorkers workerId : ℕ)
    (tok : String → List ℕ) (MAX_LENGTH : ℕ) (train_data_pipe : List Record)
    (adapterSeq : List Record) : Except PyError (List TokenizedRow) :=
  mapStage (unpack_row tok train_data_pipe MAX_LENGTH)
    (sharding_filter numWorkers workerId (shuffle 10000 rng adapterSeq))

/-- The evaluation pipeline as the spec (section 4.2) words it: shard-filter
then per-record map, with no shuffle stage. -/
def specTestPipeline (numWorkers workerId : ℕ)
    (tok : String → List ℕ) (MAX_LENGTH : ℕ) (train_data_pipe : List Record)
    (adapterSeq : List Record) : Except PyError (List TokenizedRow) :=
  mapStage (unpack_row tok train_data_pipe MAX_LENGTH)
    (sharding_filter numWorkers workerId adapterSeq)

/-! ## The train and test loops -/

/-- A batch as the train loop observes it: len(outputs), which equals the
batch size, and the scalar loss value criterion(outputs, targets); model and
criterion internals are external collaborators. -/
structure TrainBatch where
  size : ℕ
  loss : ℚ
  deriving Repr, DecidableEq

/-- A batch as the test loop observes it: the per-element model inputs and
the integer targets tensor. -/
structure TestBatch (I : Type) where
  inputs : List I
  targets : List ℤ
  deriving Repr, DecidableEq

/-- The mutable state of the model object: its parameters and its
train/eval mode flag. -/
structure ModelState (P : Type) where
  params : P
  training : Bool
  deriving Repr, DecidableEq

/-- Accumulator of the shared loop skeleton of train and test: executed
iterations, total_samples, and a loop-specific accumulator (total_loss, and
for test also total_correct). -/
structure LoopAcc (σ : Type) where
  iters : ℕ
  samples : ℕ
  st : σ
  deriving Repr, DecidableEq

/-- The loop bound check: iteration i (1-based) proceeds iff not
(i > max_steps); max_steps None stands for float("inf"). -/
def withinCap (cap : Option ℚ) (i : ℕ) : Bool :=
  match cap with
  | none => true
  | some c => decide ((i : ℚ) ≤ c)

/-- The shared skeleton of the train and test loops: iterate
enumerate(dataloader, 1), break once the iteration exceeds max_steps,
accumulate the batch, and every 100 iterations report running statistics;
the report's divisions by total_samples raise ZeroDivisionError when
total_samples is zero. -/
def loopScan (sz : β → ℕ) (upd : σ → β → σ) (cap : Option ℚ) :
    List β → ℕ → LoopAcc σ → LoopAcc σ × Option PyError
  | [], _, a => (a, none)
  | b :: rest, i, a =>
    if withinCap cap i then
      let a' : LoopAcc σ := ⟨a.iters + 1, a.samples + sz b, upd a.st b⟩
      if i % 100 = 0 ∧ a'.samples = 0 then (a', some .zeroDivision)
      else loopScan sz upd cap rest (i + 1) a'
    else (a, none)

/-- Per-batch accumulation of train: total_loss += len(outputs) * loss;
total_samples += len(outputs). -/
def trainUpd (totalLoss : ℚ) (b : TrainBatch) : ℚ :=
  totalLoss + (b.size : ℚ) * b.loss

/-- The train loop body after the max_steps guard, ending in the final
mean_loss = total_loss / total_samples, a ZeroDivisionError when
total_samples is zero. -/
def trainBody (batches : List TrainBatch) (cap : Option ℚ) :
    Except PyError (Option ℚ) :=
  match loopScan TrainBatch.size trainUpd cap batches 1 ⟨0, 0, 0⟩ with
  | (_, some e) => .error e
  | (a, none) =>
    if a.samples = 0 then .error .zeroDivision
    else .ok (some (a.st / (a.samples : ℚ)))

/-- train(model, optimizer, dataloader, max_steps): returns None when
max_steps is given and nonpositive, otherwise runs the loop and returns the
final mean loss. -/
def train (batches : List TrainBatch) (max_steps : Option ℚ) :
    Except PyError (Option ℚ) :=
  match max_steps with
  | none => trainBody batches none
  | some c => if c ≤ 0 then .ok none else trainBody batches (some c)

/-- The number of loop iterations train executes. -/
def trainIters (batches : List TrainBatch) (max_steps : Option ℚ) : ℕ :=
  match max_steps with
  | none => (loopScan TrainBatch.size trainUpd none batches 1 ⟨0, 0, 0⟩).1.iters
  | some c =>
    if c ≤ 0 then 0
    else (loopScan TrainBatch.size trainUpd (some c) batches 1 ⟨0, 0, 0⟩).1.iters

/-- torch.argmax along the class axis: the index of the first maximal
score. -/
def argmaxIdx : List ℚ → ℕ
  | [] => 0
  | [_] => 0
  | x :: y :: ys =>
    let r := argmaxIdx (y :: ys)
    if x < (y :: ys).getD r 0 then r + 1 else 0

/-- The contribution of one batch to total_correct:
torch.sum((preds == targets).float()) with preds = torch.argmax(outputs). -/
def countCorrect (outputs : List (List ℚ)) (targets : List ℤ) : ℕ :=
  ((outputs.map argmaxIdx).zip targets).countP (fun p => decide ((p.1 : ℤ) = p.2))

/-- Per-batch accumulation of test: total_loss and total_correct; the
outputs are the model applied to each batch element at the current
parameters. -/
def testUpd {P I : Type} (modelFn : P → I → List ℚ)
    (criterion : List (List ℚ) → List ℤ → ℚ) (θ : P)
    (acc : ℚ × ℕ) (b : TestBatch I) : ℚ × ℕ :=
  let outputs := b.inputs.map (modelFn θ)
  (acc.1 + (outputs.length : ℚ) * criterion outputs b.targets,
   acc.2 + countCorrect outputs b.targets)

/-- The test loop body after the max_steps guard: model.eval(), the loop
under torch.no_grad with no optimizer call, and the final mean loss and
accuracy with their divisions by total_samples. -/
def testBody {P I : Type} (modelFn : P → I → List ℚ)
    (criterion : List (List ℚ) → List ℤ → ℚ) (st : ModelState P)
    (batches : List (TestBatch I)) (cap : Option ℚ) :
    ModelState P × Except PyError (Option (ℚ × ℚ)) :=
  let evalSt : ModelState P := { st with training := false }
  match loopScan (fun b => b.inputs.length) (testUpd modelFn criterion st.params)
      cap batches 1 ⟨0, 0, (0, 0)⟩ with
  | (_, some e) => (evalSt, .error e)
  | (a, none) =>
    if a.samples = 0 then (evalSt, .error .zeroDivision)
    else (evalSt, .ok (some (a.st.1 / (a.samples : ℚ), (a.st.2 : ℚ) / (a.samples : ℚ))))

/-- test(model, dataloader, max_steps): returns None when max_steps is given
and nonpositive (before model.eval()), otherwise runs the evaluation loop and
returns the pair (mean loss, accuracy). -/
def test {P I : Type} (modelFn : P → I → List ℚ)
    (criterion : List (List ℚ) → List ℤ → ℚ) (st : ModelState P)
    (batches : List (TestBatch I)) (max_steps : Option ℚ) :
    ModelState P × Except PyError (Option (ℚ × ℚ)) :=
  match max_steps with
  | none => testBody modelFn criterion st batches none
  | some c =>
    if c ≤ 0 then (st, .ok none) else testBody modelFn criterion st batches (some c)

/-- The number of loop iterations test executes. -/
def testIters {P I : Type} (modelFn : P → I → List ℚ)
    (criterion : List (List ℚ) → List ℤ → ℚ) (st : ModelState P)
    (batches : List (TestBatch I)) (max_steps : Option ℚ) : ℕ :=
  match max_steps with
  | none =>
    (loopScan (fun b => b.inputs.length) (testUpd modelFn criterion st.params)
      none batches 1 ⟨0, 0, (0, 0)⟩).1.iters
  | some c =>
    if c ≤ 0 then 0
    else (loopScan (fun b => b.inputs.length) (testUpd modelFn criterion st.params)
      (some c) batches 1 ⟨0, 0, (0, 0)⟩).1.iters

/-! ## The epoch driver cell -/

/-- Hyperparameter cell: the fixed total record counts. -/
def NUM_TRAIN_SAMPLES : ℚ := 203388

/-- Hyperparameter cell: the fixed total record counts. -/
def NUM_TEST_SAMPLES : ℚ := 206448

/-- Python int() on a float: truncation toward zero. -/
def pyInt (q : ℚ) : ℤ := if 0 ≤ q then ⌊q⌋ else ⌈q⌉

/-- whole_epochs = int(NUM_EPOCHS). -/
def whole_epochs (NUM_EPOCHS : ℚ) : ℤ := pyInt NUM_EPOCHS

/-- remainder_train_steps =
(NUM_EPOCHS - whole_epochs) * NUM_TRAIN_SAMPLES / TRAIN_BATCH_SIZE. -/
def remainder_train_steps (NUM_EPOCHS TRAIN_BATCH_SIZE : ℚ) : ℚ :=
  (NUM_EPOCHS - (whole_epochs NUM_EPOCHS : ℚ)) * NUM_TRAIN_SAMPLES / TRAIN_BATCH_SIZE

/-- The step caps of the successive train passes the driver cell performs:
range(whole_epochs) uncapped passes, then, when remainder_train_steps is
truthy (nonzero), one pass capped at remainder_train_steps. -/
def trainingPasses (NUM_EPOCHS TRAIN_BATCH_SIZE : ℚ) : List (Option ℚ) :=
  List.replicate (whole_epochs NUM_EPOCHS).toNat none ++
    (if remainder_train_steps NUM_EPOCHS TRAIN_BATCH_SIZE ≠ 0
     then [some (remainder_train_steps NUM_EPOCHS TRAIN_BATCH_SIZE)]
     else [])

/-- max_test_steps: None unless FRACTION_TEST differs from 1.0, in which case
FRACTION_TEST * NUM_TEST_SAMPLES / TEST_BATCH_SIZE. -/
def max_test_steps (FRACTION_TEST TEST_BATCH_SIZE : ℚ) : Option ℚ :=
  if FRACTION_TEST ≠ 1
  then some (FRACTION_TEST * NUM_TEST_SAMPLES / TEST_BATCH_SIZE)
  else none

/-- One iteration of the driver's epoch loop: call train, then unpack test's
result into test_loss, test_accuracy (a TypeError when test returned None),
then format the summary line (a TypeError when train_loss is None). -/
def epochBody {P I : Type} (modelFn : P → I → List ℚ)
    (criterion : List (List ℚ) → List ℤ → ℚ) (st : ModelState P)
    (trainBatches : List TrainBatch) (testBatches : List (TestBatch I))
    (trainCap testCap : Option ℚ) : Except PyError (ℚ × ℚ × ℚ) :=
  match train trainBatches trainCap with
  | .error e => .error e
  | .ok trainLoss =>
    match (test modelFn criterion st testBatches testCap).2 with
    | .error e => .error e
    | .ok none => .error .typeError
    | .ok (some (testLoss, testAcc)) =>
      match trainLoss with
      | none => .error .typeError
      | some tl => .ok (tl, testLoss, testAcc)

/-- The driver cell: the whole-epoch loop followed by the optional remainder
pass, each pass being train followed by test with max_test_steps. -/
def runDriver {P I : Type} (NUM_EPOCHS FRACTION_TEST : ℚ)
    (TRAIN_BATCH_SIZE TEST_BATCH_SIZE : ℚ) (modelFn : P → I → List ℚ)
    (criterion : List (List ℚ) → List ℤ → ℚ) (st : ModelState P)
    (trainBatches : List TrainBatch) (testBatches : List (TestBatch I)) :
    Except PyError (List (ℚ × ℚ × ℚ)) :=
  (trainingPasses NUM_EPOCHS TRAIN_BATCH_SIZE).mapM
    (fun cap => epochBody modelFn criterion st trainBatches testBatches cap
      (max_test_steps FRACTION_TEST TEST_BATCH_SIZE))

/-- The number of iterations the loop skeleton executes when the stream holds
len batches and the loop starts at iteration i: the positions within
max_steps. -/
def capLimit (cap : Option ℚ) (i len : ℕ) : ℕ :=
  match cap with
  | none => len
  | some c => min (⌊c⌋ + 1 - (i : ℤ)).toNat len

/-! ## Loop lemmas -/

theorem withinCap_some_iff (c : ℚ) (i : ℕ) :
    withinCap (some c) i = true ↔ (i : ℤ) ≤ ⌊c⌋ := by
  simp only [withinCap, decide_eq_true_eq, Int.le_floor]
  norm_cast

theorem capLimit_nil (cap : Option ℚ) (i : ℕ) : capLimit cap i 0 = 0 := by
  cases cap <;> simp [capLimit]

theorem capLimit_le (cap : Option ℚ) (i len : ℕ) : capLimit cap i len ≤ len := by
  cases cap <;> simp [capLimit]

theorem capLimit_cons_of_within (c : ℚ) (i len : ℕ) (h : (i : ℤ) ≤ ⌊c⌋) :
    capLimit (some c) i (len + 1) = capLimit (some c) (i + 1) len + 1 := by
  simp only [capLimit]
  omega

theorem capLimit_of_not_within (c : ℚ) (i len : ℕ) (h : ¬ (i : ℤ) ≤ ⌊c⌋) :
    capLimit (some c) i len = 0 := by
  simp only [capLimit]
  omega

/-- Closed form of the loop skeleton when every batch is nonempty (as every
batch a DataLoader yields is): no in-loop report ever divides by zero, the
processed batches are exactly the prefix allowed by max_steps, and the
accumulator is the fold over that prefix. -/
theorem loopScan_eq {β σ : Type} (sz : β → ℕ) (upd : σ → β → σ) (cap : Option ℚ)
    (l : List β) (i : ℕ) (a : LoopAcc σ) (hsz : ∀ b ∈ l, 1 ≤ sz b) :
    loopScan sz upd cap l i a =
      (⟨a.iters + capLimit cap i l.length,
        a.samples + ((l.take (capLimit cap i l.length)).map sz).sum,
        (l.take (capLimit cap i l.length)).foldl upd a.st⟩, none) := by
  induction l generalizing i a with
  | nil =>
    simp [loopScan, capLimit_nil]
  | cons b rest ih =>
    by_cases h : withinCap cap i = true
    · have hb : 1 ≤ sz b := hsz b (List.mem_cons_self b rest)
      have hk : capLimit cap i (b :: rest).length =
          capLimit cap (i + 1) rest.length + 1 := by
        cases cap with
        | none => simp [capLimit]
        | some c =>
          exact capLimit_cons_of_within c i rest.length ((withinCap_some_iff c i).mp h)
      have hrec := ih (i + 1) ⟨a.iters + 1, a.samples + sz b, upd a.st b⟩
        (fun x hx => hsz x (List.mem_cons_of_mem b hx))
      simp only [loopScan, h, if_true]
      rw [if_neg (by simp; omega)]
      rw [hrec, hk]
      simp only [List.take_succ_cons, List.map_cons, List.sum_cons, List.foldl_cons,
        Prod.mk.injEq, LoopAcc.mk.injEq]
      refine ⟨⟨?_, ?_, ?_⟩, trivial⟩ <;> first | omega | trivial
    · cases cap with
      | none => simp [withinCap] at h
      | some c =>
        have h0 : capLimit (some c) i (rest.length + 1) = 0 :=
          capLimit_of_not_within c i _ (fun hle => h ((withinCap_some_iff c i).mpr hle))
        simp [loopScan, h, h0]

theorem length_le_sum_map {β : Type} (sz : β → ℕ) (l : List β)
    (h : ∀ b ∈ l, 1 ≤ sz b) : l.length ≤ (l.map sz).sum := by
  induction l with
  | nil => simp
  | cons b rest ih =>
    have hb := h b (List.mem_cons_self b rest)
    have hr := ih (fun x hx => h x (List.mem_cons_of_mem b hx))
    simp only [List.map_cons, List.sum_cons, List.length_cons]
    omega

theorem sum_take_pos {β : Type} (sz : β → ℕ) (l : List β) (k : ℕ) (hk : 1 ≤ k)
    (hlen : k ≤ l.length) (h : ∀ b ∈ l, 1 ≤ sz b) :
    1 ≤ ((l.take k).map sz).sum := by
  have h1 : ∀ b ∈ l.take k, 1 ≤ sz b := fun b hb => h b (List.take_subset k l hb)
  have h2 := length_le_sum_map sz (l.take k) h1
  rw [List.length_take] at h2
  omega

theorem capLimit_one_natCap (c : ℕ) (len : ℕ) :
    capLimit (some (c : ℚ)) 1 len = min c len := by
  simp only [capLimit, Int.floor_natCast]
  omega

theorem capLimit_nonpos (c : ℚ) (hc : c ≤ 0) (i len : ℕ) (hi : 1 ≤ i) :
    capLimit (some c) i len = 0 := by
  have h0 : ⌊c⌋ ≤ 0 := by
    have := Int.floor_le_floor (α := ℚ) hc
    simpa using this
  simp only [capLimit]
  omega

theorem trainIters_natCap (batches : List TrainBatch) (c : ℕ)
    (hsz : ∀ b ∈ batches, 1 ≤ b.size) :
    trainIters batches (some (c : ℚ)) = min c batches.length := by
  simp only [trainIters]
  by_cases hc : (c : ℚ) ≤ 0
  · have hc0 : c = 0 := by exact_mod_cast le_antisymm hc (by positivity)
    subst hc0
    simp
  · rw [if_neg hc, loopScan_eq TrainBatch.size trainUpd _ batches 1 ⟨0, 0, 0⟩ hsz]
    simp [capLimit_one_natCap]

theorem trainIters_none (batches : List TrainBatch)
    (hsz : ∀ b ∈ batches, 1 ≤ b.size) :
    trainIters batches none = batches.length := by
  simp only [trainIters]
  rw [loopScan_eq TrainBatch.size trainUpd none batches 1 ⟨0, 0, 0⟩ hsz]
  simp [capLimit]

theorem testIters_natCap {P I : Type} (modelFn : P → I → List ℚ)
    (criterion : List (List ℚ) → List ℤ → ℚ) (st : ModelState P)
    (batches : List (TestBatch I)) (c : ℕ)
    (hsz : ∀ b ∈ batches, 1 ≤ b.inputs.length) :
    testIters modelFn criterion st batches (some (c : ℚ)) = min c batches.length := by
  simp only [testIters]
  by_cases hc : (c : ℚ) ≤ 0
  · have hc0 : c = 0 := by exact_mod_cast le_antisymm hc (by positivity)
    subst hc0
    simp
  · rw [if_neg hc,
      loopScan_eq (fun b => b.inputs.length) (testUpd modelFn criterion st.params) _
        batches 1 ⟨0, 0, (0, 0)⟩ hsz]
    simp [capLimit_one_natCap]

theorem testIters_none {P I : Type} (modelFn : P → I → List ℚ)
    (criterion : List (List ℚ) → List ℤ → ℚ) (st : ModelState P)
    (batches : List (TestBatch I))
    (hsz : ∀ b ∈ batches, 1 ≤ b.inputs.length) :
    testIters modelFn criterion st batches none = batches.length := by
  simp only [testIters]
  rw [loopScan_eq (fun b => b.inputs.length) (testUpd modelFn criterion st.params) none
    batches 1 ⟨0, 0, (0, 0)⟩ hsz]
  simp [capLimit]

theorem trainBody_eq_ok (batches : List TrainBatch) (cap : Option ℚ)
    (hsz : ∀ b ∈ batches, 1 ≤ b.size) (hpos : 1 ≤ capLimit cap 1 batches.length) :
    trainBody batches cap =
      .ok (some (((batches.take (capLimit cap 1 batches.length)).foldl trainUpd 0) /
        ((((batches.take (capLimit cap 1 batches.length)).map TrainBatch.size).sum : ℕ) : ℚ))) := by
  rw [trainBody, loopScan_eq TrainBatch.size trainUpd cap batches 1 ⟨0, 0, 0⟩ hsz]
  have hs := sum_take_pos TrainBatch.size batches _ hpos (capLimit_le cap 1 _) hsz
  simp only [Nat.zero_add]
  rw [if_neg (by omega)]

theorem train_ok_of_pos (batches : List TrainBatch) (cap : Option ℚ)
    (hsz : ∀ b ∈ batches, 1 ≤ b.size) (hpos : 1 ≤ capLimit cap 1 batches.length) :
    ∃ q, train batches cap = .ok (some q) := by
  cases cap with
  | none => exact ⟨_, trainBody_eq_ok batches none hsz hpos⟩
  | some c =>
    have hc : ¬ c ≤ 0 := by
      intro hle
      rw [capLimit_nonpos c hle 1 batches.length le_rfl] at hpos
      omega
    rw [train, if_neg hc]
    exact ⟨_, trainBody_eq_ok batches (some c) hsz hpos⟩

theorem testBody_eq_ok {P I : Type} (modelFn : P → I → List ℚ)
    (criterion : List (List ℚ) → List ℤ → ℚ) (st : ModelState P)
    (batches : List (TestBatch I)) (cap : Option ℚ)
    (hsz : ∀ b ∈ batches, 1 ≤ b.inputs.length)
    (hpos : 1 ≤ capLimit cap 1 batches.length) :
    testBody modelFn criterion st batches cap =
      ({ st with training := false },
       .ok (some
        ((((batches.take (capLimit cap 1 batches.length)).foldl
            (testUpd modelFn criterion st.params) (0, 0)).1 /
          ((((batches.take (capLimit cap 1 batches.length)).map
            (fun b => b.inputs.length)).sum : ℕ) : ℚ)),
         ((((batches.take (capLimit cap 1 batches.length)).foldl
            (testUpd modelFn criterion st.params) (0, 0)).2 : ℕ) : ℚ) /
          ((((batches.take (capLimit cap 1 batches.length)).map
            (fun b => b.inputs.length)).sum : ℕ) : ℚ)))) := by
  rw [testBody,
    loopScan_eq (fun b => b.inputs.length) (testUpd modelFn criterion st.params) cap
      batches 1 ⟨0, 0, (0, 0)⟩ hsz]
  have hs := sum_take_pos (fun b => b.inputs.length) batches _ hpos
    (capLimit_le cap 1 _) hsz
  simp only [Nat.zero_add]
  rw [if_neg (by omega)]

theorem test_ok_of_pos {P I : Type} (modelFn : P → I → List ℚ)
    (criterion : List (List ℚ) → List ℤ → ℚ) (st : ModelState P)
    (batches : List (TestBatch I)) (cap : Option ℚ)
    (hsz : ∀ b ∈ batches, 1 ≤ b.inputs.length)
    (hpos : 1 ≤ capLimit cap 1 batches.length) :
    ∃ p, test modelFn criterion st batches cap = ({ st with training := false }, .ok (some p)) := by
  cases cap with
  | none => exact ⟨_, testBody_eq_ok modelFn criterion st batches none hsz hpos⟩
  | some c =>
    have hc : ¬ c ≤ 0 := by
      intro hle
      rw [capLimit_nonpos c hle 1 batches.length le_rfl] at hpos
      omega
    rw [test, if_neg hc]
    exact ⟨_, testBody_eq_ok modelFn criterion st batches (some c) hsz hpos⟩

/-! ## C1: step-capped iteration counts -/

/-- C1: for every dataloader (batch stream) and every step cap, the train and
test loops execute exactly min(cap, available batches) iterations; an
uncapped run executes all available batches; a cap of zero executes zero
iterations and returns without error (returning None); a cap below the number
of available batches truncates the epoch early without error. -/
theorem c1_step_cap_executes_min {P I : Type} (modelFn : P → I → List ℚ)
    (criterion : List (List ℚ) → List ℤ → ℚ) (st : ModelState P)
    (trainBatches : List TrainBatch) (testBatches : List (TestBatch I)) (c : ℕ)
    (htr : ∀ b ∈ trainBatches, 1 ≤ b.size)
    (hte : ∀ b ∈ testBatches, 1 ≤ b.inputs.length) :
    trainIters trainBatches (some (c : ℚ)) = min c trainBatches.length ∧
    testIters modelFn criterion st testBatches (some (c : ℚ)) = min c testBatches.length ∧
    trainIters trainBatches none = trainBatches.length ∧
    testIters modelFn criterion st testBatches none = testBatches.length ∧
    train trainBatches (some ((0 : ℕ) : ℚ)) = .ok none ∧
    test modelFn criterion st testBatches (some ((0 : ℕ) : ℚ)) = (st, .ok none) ∧
    (c < trainBatches.length → ∃ r, train trainBatches (some (c : ℚ)) = .ok r) ∧
    (c < testBatches.length →
      ∃ st2 r, test modelFn criterion st testBatches (some (c : ℚ)) = (st2, .ok r)) := by
  refine ⟨trainIters_natCap trainBatches c htr,
    testIters_natCap modelFn criterion st testBatches c hte,
    trainIters_none trainBatches htr,
    testIters_none modelFn criterion st testBatches hte,
    by simp [train], by simp [test], ?_, ?_⟩
  · intro hlt
    rcases Nat.eq_zero_or_pos c with hc0 | hcpos
    · subst hc0
      exact ⟨none, by simp [train]⟩
    · have hpos : 1 ≤ capLimit (some (c : ℚ)) 1 trainBatches.length := by
        rw [capLimit_one_natCap]
        omega
      obtain ⟨q, hq⟩ := train_ok_of_pos trainBatches (some (c : ℚ)) htr hpos
      exact ⟨some q, hq⟩
  · intro hlt
    rcases Nat.eq_zero_or_pos c with hc0 | hcpos
    · subst hc0
      exact ⟨st, none, by simp [test]⟩
    · have hpos : 1 ≤ capLimit (some (c : ℚ)) 1 testBatches.length := by
        rw [capLimit_one_natCap]
        omega
      obtain ⟨p, hp⟩ := test_ok_of_pos modelFn criterion st testBatches (some (c : ℚ)) hte hpos
      exact ⟨_, some p, hp⟩

/-- Witness for C1 at a concrete instance: two train batches and two test
batches with a cap of one. -/
theorem c1_step_cap_executes_min_witness :
    trainIters [⟨1, 0⟩, ⟨1, 0⟩] (some ((1 : ℕ) : ℚ)) = min 1 2 ∧
    testIters (fun (_ : ℤ) (_ : ℤ) => ([] : List ℚ)) (fun _ _ => 0) ⟨0, true⟩
      [⟨[0], [0]⟩, ⟨[0], [0]⟩] (some ((1 : ℕ) : ℚ)) = min 1 2 :=
  ⟨((c1_step_cap_executes_min (fun (_ : ℤ) (_ : ℤ) => ([] : List ℚ)) (fun _ _ => 0)
      ⟨0, true⟩ [⟨1, 0⟩, ⟨1, 0⟩] [⟨[0], [0]⟩, ⟨[0], [0]⟩] 1
      (by decide) (by decide)).1),
   ((c1_step_cap_executes_min (fun (_ : ℤ) (_ : ℤ) => ([] : List ℚ)) (fun _ _ => 0)
      ⟨0, true⟩ [⟨1, 0⟩, ⟨1, 0⟩] [⟨[0], [0]⟩, ⟨[0], [0]⟩] 1
      (by decide) (by decide)).2.1)⟩

/-! ## C6: divisions by total_samples -/

/-- C6 (amended): with nonempty batches, the in-loop report divisions of both
train and test (running mean loss, running accuracy, throughput), emitted only
at iteration counts that are multiples of the 100-step cadence, never divide
by zero samples — the loop scan never raises — and whenever at least one batch
is processed the final mean divisions are safe as well.  Only the final
divisions after the loop are unguarded (see the counterexample with an empty
dataloader). -/
theorem c6_report_divisions_guarded {P I : Type} (modelFn : P → I → List ℚ)
    (criterion : List (List ℚ) → List ℤ → ℚ) (st : ModelState P)
    (trainBatches : List TrainBatch) (testBatches : List (TestBatch I))
    (cap : Option ℚ)
    (htr : ∀ b ∈ trainBatches, 1 ≤ b.size)
    (hte : ∀ b ∈ testBatches, 1 ≤ b.inputs.length) :
    (loopScan TrainBatch.size trainUpd cap trainBatches 1 ⟨0, 0, 0⟩).2 = none ∧
    (loopScan (fun b => b.inputs.length) (testUpd modelFn criterion st.params) cap
      testBatches 1 ⟨0, 0, (0, 0)⟩).2 = none ∧
    (1 ≤ capLimit cap 1 trainBatches.length →
      ∃ q, train trainBatches cap = .ok (some q)) ∧
    (1 ≤ capLimit cap 1 testBatches.length →
      ∃ p, (test modelFn criterion st testBatches cap).2 = .ok (some p)) := by
  refine ⟨?_, ?_, ?_, ?_⟩
  · rw [loopScan_eq _ _ _ _ _ _ htr]
  · rw [loopScan_eq _ _ _ _ _ _ hte]
  · exact fun h => train_ok_of_pos trainBatches cap htr h
  · intro h
    obtain ⟨p, hp⟩ := test_ok_of_pos modelFn criterion st testBatches cap hte h
    exact ⟨p, by rw [hp]⟩

/-- Witness for C6 at a concrete instance: an uncapped run over singleton
batch lists. -/
theorem c6_report_divisions_guarded_witness :
    (loopScan TrainBatch.size trainUpd none [⟨1, 0⟩] 1 ⟨0, 0, 0⟩).2 = none ∧
    (∃ q, train [⟨1, (0 : ℚ)⟩] none = .ok (some q)) :=
  ⟨(c6_report_divisions_guarded (fun (_ : ℤ) (_ : ℤ) => ([] : List ℚ)) (fun _ _ => 0)
      ⟨0, true⟩ [⟨1, 0⟩] [⟨[0], [0]⟩] none (by decide) (by decide)).1,
   (c6_report_divisions_guarded (fun (_ : ℤ) (_ : ℤ) => ([] : List ℚ)) (fun _ _ => 0)
      ⟨0, true⟩ [⟨1, 0⟩] [⟨[0], [0]⟩] none (by decide) (by decide)).2.2.1 (by decide)⟩

/-- C6 counterexample: the claim "no division by zero samples is reachable"
fails as stated: the final mean_loss = total_loss / total_samples division of
train divides by zero samples both on an empty dataloader with no step cap
and on a nonempty dataloader with a positive cap below one — the latter
arises from a tiny fractional epoch remainder — raising ZeroDivisionError. -/
theorem c6_final_division_unguarded :
    train [] none = .error PyError.zeroDivision ∧
    train [⟨1, 0⟩] (some ((1 : ℚ)/2)) = .error PyError.zeroDivision := by
  refine ⟨rfl, ?_⟩
  have hc : ¬ ((1 : ℚ)/2 ≤ 0) := by norm_num
  have hw : withinCap (some ((1 : ℚ)/2)) 1 = false := by
    simp only [withinCap, decide_eq_false_iff_not]
    norm_num
  have hscan : loopScan TrainBatch.size trainUpd (some ((1 : ℚ)/2))
      [⟨1, 0⟩] 1 ⟨0, 0, 0⟩ = (⟨0, 0, 0⟩, none) := by
    rw [loopScan, if_neg (by rw [hw]; exact Bool.false_ne_true)]
  rw [train, if_neg hc, trainBody, hscan]
  rfl

/-! ## C9: None results for nonpositive caps, and the driver TypeError -/

theorem mapM_cons_error {α β : Type} (f : α → Except PyError β) (a : α) (l : List α)
    (e : PyError) (h : f a = .error e) : (a :: l).mapM f = .error e := by
  show List.mapM.loop f (a :: l) [] = Except.error e
  rw [List.mapM.loop, h]
  rfl

/-- C9: when the step cap is zero or negative, train and test return None
instead of their normal results; consequently the epoch driver, which unpacks
test's result as a pair, fails with a TypeError when the computed test step
cap is zero, as happens for evaluation fraction 0. -/
theorem c9_nonpositive_cap_none_driver_fails {P I : Type} (modelFn : P → I → List ℚ)
    (criterion : List (List ℚ) → List ℤ → ℚ) (st : ModelState P)
    (trainBatches : List TrainBatch) (testBatches : List (TestBatch I))
    (B T c : ℚ) (hc : c ≤ 0)
    (htr : ∀ b ∈ trainBatches, 1 ≤ b.size) (hne : trainBatches ≠ []) :
    train trainBatches (some c) = .ok none ∧
    test modelFn criterion st testBatches (some c) = (st, .ok none) ∧
    runDriver 2 0 B T modelFn criterion st trainBatches testBatches =
      .error .typeError := by
  refine ⟨by rw [train, if_pos hc], by rw [test, if_pos hc], ?_⟩
  have hw : whole_epochs 2 = 2 := by
    norm_num [whole_epochs, pyInt]
  have hr : remainder_train_steps 2 B = 0 := by
    rw [remainder_train_steps, hw]
    norm_num
  have hpasses : trainingPasses 2 B = [none, none] := by
    rw [trainingPasses, hw, hr]
    simp [List.replicate]
  have htest0 : max_test_steps 0 T = some (0 * NUM_TEST_SAMPLES / T) := by
    norm_num [max_test_steps]
  have htest : test modelFn criterion st testBatches (max_test_steps 0 T) =
      (st, .ok none) := by
    rw [htest0, test, if_pos (by simp)]
  obtain ⟨q, hq⟩ := train_ok_of_pos trainBatches none htr
    (by simpa [capLimit] using List.length_pos.mpr hne)
  have hbody : epochBody modelFn criterion st trainBatches testBatches none
      (max_test_steps 0 T) = .error .typeError := by
    rw [epochBody, hq, htest]
  rw [runDriver, hpasses]
  exact mapM_cons_error _ none [none] _ hbody

/-- Witness for C9 at a concrete instance: cap 0 and evaluation fraction 0. -/
theorem c9_nonpositive_cap_none_driver_fails_witness :
    train [⟨1, (0 : ℚ)⟩] (some 0) = .ok none ∧
    runDriver 2 0 1 1 (fun (_ : ℤ) (_ : ℤ) => ([] : List ℚ)) (fun _ _ => 0)
      ⟨0, true⟩ [⟨1, 0⟩] [⟨[0], [0]⟩] = .error .typeError :=
  ⟨(c9_nonpositive_cap_none_driver_fails (fun (_ : ℤ) (_ : ℤ) => ([] : List ℚ))
      (fun _ _ => 0) ⟨0, true⟩ [⟨1, 0⟩] [⟨[0], [0]⟩] 1 1 0 le_rfl
      (by decide) (by simp)).1,
   (c9_nonpositive_cap_none_driver_fails (fun (_ : ℤ) (_ : ℤ) => ([] : List ℚ))
      (fun _ _ => 0) ⟨0, true⟩ [⟨1, 0⟩] [⟨[0], [0]⟩] 1 1 0 le_rfl
      (by decide) (by simp)).2.2⟩

/-! ## C5: whole and fractional epochs -/

/-- C5 (amended to nonnegative epoch counts): for every configured epoch
count E with 0 ≤ E, the driver performs floor(E) uncapped whole-epoch train
passes; when E has a nonzero fractional part it performs one additional pass
capped at (E - floor(E)) * NUM_TRAIN_SAMPLES / TRAIN_BATCH_SIZE steps after
the whole epochs; when E is an integer no extra pass runs. -/
theorem c5_fractional_epochs (E B : ℚ) (hE : 0 ≤ E) (hB : 0 < B) :
    trainingPasses E B =
      List.replicate (⌊E⌋).toNat none ++
        (if Int.fract E = 0 then []
         else [some ((E - (⌊E⌋ : ℚ)) * NUM_TRAIN_SAMPLES / B)]) := by
  have hw : whole_epochs E = ⌊E⌋ := by rw [whole_epochs, pyInt, if_pos hE]
  have hrem : remainder_train_steps E B =
      (E - (⌊E⌋ : ℚ)) * NUM_TRAIN_SAMPLES / B := by
    rw [remainder_train_steps, hw]
  have hiff : remainder_train_steps E B = 0 ↔ Int.fract E = 0 := by
    rw [hrem, Int.self_sub_floor, div_eq_zero_iff, mul_eq_zero]
    have hN : NUM_TRAIN_SAMPLES ≠ 0 := by norm_num [NUM_TRAIN_SAMPLES]
    have hB' : B ≠ 0 := ne_of_gt hB
    tauto
  rw [trainingPasses, hw]
  by_cases hf : Int.fract E = 0
  · rw [if_neg (not_not.mpr (hiff.mpr hf)), if_pos hf]
  · rw [if_pos (fun h0 => hf (hiff.mp h0)), if_neg hf, hrem]

/-- Witness for C5 at the concrete epoch count 5/2 and batch size 128. -/
theorem c5_fractional_epochs_witness :
    trainingPasses ((5 : ℚ)/2) 128 =
      List.replicate (⌊(5 : ℚ)/2⌋).toNat none ++
        (if Int.fract ((5 : ℚ)/2) = 0 then []
         else [some (((5 : ℚ)/2 - (⌊(5 : ℚ)/2⌋ : ℚ)) * NUM_TRAIN_SAMPLES / 128)]) :=
  c5_fractional_epochs ((5 : ℚ)/2) 128 (div_nonneg (by decide) (by decide)) (by decide)

/-- C5 counterexample: for the configured epoch count -1/2 the claim fails:
floor(-1/2) = -1, yet the driver performs zero whole-epoch passes (Python
int() truncates toward zero), and the single extra pass is capped at the
negative value (-1/2) * NUM_TRAIN_SAMPLES / 128 rather than at
(-1/2 - floor(-1/2)) * NUM_TRAIN_SAMPLES / 128. -/
theorem c5_counterexample :
    ((trainingPasses (-(1 : ℚ)/2) 128).countP (fun p => p.isNone) : ℤ) ≠
      ⌊(-(1 : ℚ)/2)⌋ ∧
    trainingPasses (-(1 : ℚ)/2) 128 =
      [some ((-(1 : ℚ)/2) * NUM_TRAIN_SAMPLES / 128)] ∧
    (-(1 : ℚ)/2) * NUM_TRAIN_SAMPLES / 128 ≠
      ((-(1 : ℚ)/2) - (⌊(-(1 : ℚ)/2)⌋ : ℚ)) * NUM_TRAIN_SAMPLES / 128 := by
  have hw : whole_epochs (-(1 : ℚ)/2) = 0 := by
    rw [whole_epochs, pyInt, if_neg (by norm_num)]
    norm_num
  have hrem : remainder_train_steps (-(1 : ℚ)/2) 128 =
      (-(1 : ℚ)/2) * NUM_TRAIN_SAMPLES / 128 := by
    rw [remainder_train_steps, hw]
    norm_num
  have hne : remainder_train_steps (-(1 : ℚ)/2) 128 ≠ 0 := by
    rw [hrem]
    norm_num [NUM_TRAIN_SAMPLES]
  have hpasses : trainingPasses (-(1 : ℚ)/2) 128 =
      [some ((-(1 : ℚ)/2) * NUM_TRAIN_SAMPLES / 128)] := by
    rw [trainingPasses, hw, if_pos hne, hrem]
    simp
  refine ⟨?_, hpasses, ?_⟩
  · rw [hpasses]
    norm_num
  · norm_num [NUM_TRAIN_SAMPLES]

/-! ## C7: evaluation frame and top-1 accuracy -/

theorem argmaxIdx_spec (l : List ℚ) (hne : l ≠ []) :
    argmaxIdx l < l.length ∧
    ∀ j, j < l.length → l.getD j 0 ≤ l.getD (argmaxIdx l) 0 := by
  induction l with
  | nil => cases hne rfl
  | cons x xs ih =>
    cases xs with
    | nil =>
      refine ⟨by simp [argmaxIdx], ?_⟩
      intro j hj
      have hj0 : j = 0 := by simpa using hj
      subst hj0
      simp [argmaxIdx]
    | cons y ys =>
      obtain ⟨ihb, ihm⟩ := ih (by simp)
      simp only [argmaxIdx]
      by_cases hlt : x < (y :: ys).getD (argmaxIdx (y :: ys)) 0
      · rw [if_pos hlt]
        refine ⟨by simpa using Nat.succ_lt_succ ihb, ?_⟩
        intro j hj
        cases j with
        | zero => simpa using le_of_lt hlt
        | succ k =>
          have hk := ihm k (by simpa using hj)
          simpa using hk
      · rw [if_neg hlt]
        refine ⟨by simp, ?_⟩
        intro j hj
        cases j with
        | zero => simp
        | succ k =>
          have h1 := ihm k (by simpa using hj)
          have h2 : (y :: ys).getD (argmaxIdx (y :: ys)) 0 ≤ x := le_of_not_lt hlt
          simp only [List.getD_cons_succ, List.getD_cons_zero]
          exact le_trans h1 h2

theorem foldl_testUpd_eq {P I : Type} (modelFn : P → I → List ℚ)
    (criterion : List (List ℚ) → List ℤ → ℚ) (θ : P) (l : List (TestBatch I))
    (acc : ℚ × ℕ) :
    l.foldl (testUpd modelFn criterion θ) acc =
      (acc.1 + (l.map (fun b => (((b.inputs.map (modelFn θ)).length : ℕ) : ℚ) *
         criterion (b.inputs.map (modelFn θ)) b.targets)).sum,
       acc.2 + (l.map (fun b => countCorrect (b.inputs.map (modelFn θ)) b.targets)).sum) := by
  induction l generalizing acc with
  | nil => simp
  | cons b rest ih =>
    rw [List.foldl_cons, ih]
    simp only [testUpd, List.map_cons, List.sum_cons, Prod.mk.injEq]
    constructor
    · ring
    · omega

theorem testBody_params {P I : Type} (modelFn : P → I → List ℚ)
    (criterion : List (List ℚ) → List ℤ → ℚ) (st : ModelState P)
    (batches : List (TestBatch I)) (cap : Option ℚ) :
    (testBody modelFn criterion st batches cap).1.params = st.params := by
  cases hs : loopScan (fun b => b.inputs.length) (testUpd modelFn criterion st.params)
      cap batches 1 ⟨0, 0, (0, 0)⟩ with
  | mk a err =>
    cases err with
    | none =>
      simp only [testBody, hs]
      split <;> rfl
    | some e =>
      simp only [testBody, hs]

/-- C7: for every model state, dataloader and step cap, the test loop leaves
the model parameters unchanged; an uncapped run over nonempty batches
returns, without parameter updates, the sample-weighted mean criterion
(cross-entropy) loss together with the top-1 accuracy, the fraction of batch
elements whose argmax output class equals the integer target; and argmax
indeed selects an index of a highest-scoring class. -/
theorem c7_test_frame_and_accuracy {P I : Type} (modelFn : P → I → List ℚ)
    (criterion : List (List ℚ) → List ℤ → ℚ) (st : ModelState P)
    (batches : List (TestBatch I)) (cap : Option ℚ)
    (hsz : ∀ b ∈ batches, 1 ≤ b.inputs.length) (hne : batches ≠ []) :
    (test modelFn criterion st batches cap).1.params = st.params ∧
    test modelFn criterion st batches none =
      ({ st with training := false },
        .ok (some (
          ((batches.map (fun b => (((b.inputs.map (modelFn st.params)).length : ℕ) : ℚ) *
            criterion (b.inputs.map (modelFn st.params)) b.targets)).sum) /
            (((batches.map (fun b => b.inputs.length)).sum : ℕ) : ℚ),
          (((batches.map (fun b =>
              countCorrect (b.inputs.map (modelFn st.params)) b.targets)).sum : ℕ) : ℚ) /
            (((batches.map (fun b => b.inputs.length)).sum : ℕ) : ℚ)))) ∧
    (∀ scores : List ℚ, scores ≠ [] →
      argmaxIdx scores < scores.length ∧
      ∀ j, j < scores.length → scores.getD j 0 ≤ scores.getD (argmaxIdx scores) 0) := by
  have hpos : 1 ≤ capLimit none 1 batches.length := by
    simpa [capLimit] using List.length_pos.mpr hne
  refine ⟨?_, ?_, fun scores h => argmaxIdx_spec scores h⟩
  · cases cap with
    | none => exact testBody_params modelFn criterion st batches none
    | some c =>
      rw [test]
      by_cases hc : c ≤ 0
      · rw [if_pos hc]
      · rw [if_neg hc]
        exact testBody_params modelFn criterion st batches (some c)
  · have heq := testBody_eq_ok modelFn criterion st batches none hsz hpos
    have hcap : capLimit none 1 batches.length = batches.length := rfl
    rw [hcap, List.take_length, foldl_testUpd_eq] at heq
    simpa using heq

/-- Witness for C7 at a concrete instance: the parameters survive the test
call unchanged. -/
theorem c7_test_frame_and_accuracy_witness :
    (test (fun (θ : ℤ) (_ : ℤ) => [(θ : ℚ)]) (fun _ _ => 0) ⟨5, true⟩
      [⟨[0], [0]⟩] none).1.params = 5 :=
  (c7_test_frame_and_accuracy (fun (θ : ℤ) (_ : ℤ) => [(θ : ℚ)]) (fun _ _ => 0)
    ⟨5, true⟩ [⟨[0], [0]⟩] none (by decide) (by decide)).1

/-! ## C2: the label dictionary -/

theorem lookup_enumAList_eq_some (S : List String) (hnd : S.Nodup) :
    ∀ (k n : ℕ) (y : String),
      List.lookup y (enumAList k S) = some n ↔ ∃ i, k + i = n ∧ S[i]? = some y := by
  induction S with
  | nil =>
    intro k n y
    simp [enumAList]
  | cons a S ih =>
    intro k n y
    obtain ⟨ha, hS⟩ := List.nodup_cons.mp hnd
    by_cases hay : a = y
    · subst hay
      simp only [enumAList, List.lookup, beq_self_eq_true, Option.some.injEq]
      constructor
      · intro hkn
        exact ⟨0, by omega, by simp⟩
      · rintro ⟨i, hki, hget⟩
        cases i with
        | zero => omega
        | succ j =>
          rw [List.getElem?_cons_succ] at hget
          exact absurd (List.getElem?_mem hget) ha
    · have hbeq : (y == a) = false := beq_eq_false_iff_ne.mpr (Ne.symm hay)
      simp only [enumAList, List.lookup, hbeq]
      rw [ih hS (k + 1) n y]
      constructor
      · rintro ⟨i, hki, hget⟩
        exact ⟨i + 1, by omega, by rwa [List.getElem?_cons_succ]⟩
      · rintro ⟨i, hki, hget⟩
        cases i with
        | zero =>
          rw [List.getElem?_cons_zero] at hget
          exact absurd (Option.some.inj hget) hay
        | succ j =>
          rw [List.getElem?_cons_succ] at hget
          exact ⟨j, by omega, hget⟩

theorem lookup_swap_enumAList (S : List String) :
    ∀ (k n : ℕ) (y : String),
      List.lookup n ((enumAList k S).map (fun p => (p.2, p.1))) = some y ↔
        ∃ i, k + i = n ∧ S[i]? = some y := by
  induction S with
  | nil =>
    intro k n y
    simp [enumAList]
  | cons a S ih =>
    intro k n y
    by_cases hk : k = n
    · subst hk
      simp only [enumAList, List.map_cons, List.lookup, beq_self_eq_true,
        Option.some.injEq]
      constructor
      · intro hay
        exact ⟨0, by omega, by simp [hay]⟩
      · rintro ⟨i, hki, hget⟩
        cases i with
        | zero =>
          rw [List.getElem?_cons_zero] at hget
          exact Option.some.inj hget
        | succ j => omega
    · have hbeq : ((n : ℕ) == k) = false := beq_eq_false_iff_ne.mpr (Ne.symm hk)
      simp only [enumAList, List.map_cons, List.lookup, hbeq]
      rw [ih (k + 1) n y]
      constructor
      · rintro ⟨i, hki, hget⟩
        exact ⟨i + 1, by omega, by rwa [List.getElem?_cons_succ]⟩
      · rintro ⟨i, hki, hget⟩
        cases i with
        | zero => omega
        | succ j =>
          rw [List.getElem?_cons_succ] at hget
          exact ⟨j, by omega, hget⟩

theorem sortedClasses_nodup (p : List Record) : (sortedClasses p).Nodup :=
  (List.perm_insertionSort _ _).nodup_iff.mpr
    (List.nodup_dedup (p.map Record.language))

theorem mem_sortedClasses (p : List Record) (y : String) :
    y ∈ sortedClasses p ↔ y ∈ p.map Record.language := by
  rw [sortedClasses, (List.perm_insertionSort _ _).mem_iff, List.mem_dedup]

theorem sortedClasses_sorted (p : List Record) :
    (sortedClasses p).Sorted (· ≤ ·) :=
  List.sorted_insertionSort _ _

theorem sortedClasses_strict (p : List Record) :
    (sortedClasses p).Pairwise (· < ·) := by
  have hs := sortedClasses_sorted p
  have hn := sortedClasses_nodup p
  exact (hs.and hn).imp (fun h => lt_of_le_of_ne h.1 h.2)

theorem sortedClasses_lt_of_getElem (p : List Record) (n₁ n₂ : ℕ) (y₁ y₂ : String)
    (h1 : (sortedClasses p)[n₁]? = some y₁) (h2 : (sortedClasses p)[n₂]? = some y₂)
    (hlt : n₁ < n₂) : y₁ < y₂ := by
  rw [List.getElem?_eq_some] at h1 h2
  obtain ⟨hb1, hv1⟩ := h1
  obtain ⟨hb2, hv2⟩ := h2
  subst hv1
  subst hv2
  exact List.pairwise_iff_getElem.mp (sortedClasses_strict p) n₁ n₂ hb1 hb2 hlt

theorem lookup_classes_to_int (p : List Record) (y : String) (n : ℕ) :
    List.lookup y (classes_to_int p) = some n ↔ (sortedClasses p)[n]? = some y := by
  rw [classes_to_int, lookup_enumAList_eq_some _ (sortedClasses_nodup p)]
  constructor
  · rintro ⟨i, hi, h⟩
    rwa [show i = n by omega] at h
  · intro h
    exact ⟨n, by omega, h⟩

theorem lookup_int_to_classes (p : List Record) (y : String) (n : ℕ) :
    List.lookup n (int_to_classes p) = some y ↔ (sortedClasses p)[n]? = some y := by
  rw [int_to_classes, classes_to_int, lookup_swap_enumAList]
  constructor
  · rintro ⟨i, hi, h⟩
    rwa [show i = n by omega] at h
  · intro h
    exact ⟨n, by omega, h⟩

theorem sortedClasses_aba :
    sortedClasses [⟨"t1", "a"⟩, ⟨"t2", "b"⟩, ⟨"t3", "a"⟩] = ["a", "b"] := by
  rw [sortedClasses]
  have hmap : (([⟨"t1", "a"⟩, ⟨"t2", "b"⟩, ⟨"t3", "a"⟩] : List Record).map
      Record.language) = ["a", "b", "a"] := rfl
  rw [hmap]
  have hd : (["a", "b", "a"] : List String).dedup = ["b", "a"] := by decide
  rw [hd]
  have hba : ¬ ("b" : String) ≤ "a" := by
    rw [String.le_iff_toList_le]
    decide
  simp [List.insertionSort, List.orderedInsert, hba]

theorem classes_to_int_aba :
    classes_to_int [⟨"t1", "a"⟩, ⟨"t2", "b"⟩, ⟨"t3", "a"⟩] = [("a", 0), ("b", 1)] := by
  rw [classes_to_int, sortedClasses_aba]
  rfl

theorem int_to_classes_aba :
    int_to_classes [⟨"t1", "a"⟩, ⟨"t2", "b"⟩, ⟨"t3", "a"⟩] = [(0, "a"), (1, "b")] := by
  rw [int_to_classes, classes_to_int, sortedClasses_aba]
  rfl

/-- C2: for every training record sequence, classes_to_int maps exactly the
labels occurring in training, injectively onto the indices 0..n-1 of the
sorted distinct-label list, in sorted label order; int_to_classes is its
exact inverse; and on a training pipe with labels a, b, a it is the dict
sending a to 0 and b to 1, with inverse sending 0 to a and 1 to b. -/
theorem c2_classes_to_int_bijection (p : List Record) :
    (∀ y, (List.lookup y (classes_to_int p)).isSome ↔ y ∈ p.map Record.language) ∧
    (∀ y n, List.lookup y (classes_to_int p) = some n →
      n < (sortedClasses p).length) ∧
    (∀ y₁ y₂ n, List.lookup y₁ (classes_to_int p) = some n →
      List.lookup y₂ (classes_to_int p) = some n → y₁ = y₂) ∧
    (∀ n, n < (sortedClasses p).length →
      ∃ y, List.lookup y (classes_to_int p) = some n) ∧
    (∀ y₁ y₂ n₁ n₂, List.lookup y₁ (classes_to_int p) = some n₁ →
      List.lookup y₂ (classes_to_int p) = some n₂ → (y₁ < y₂ ↔ n₁ < n₂)) ∧
    (∀ y n, List.lookup n (int_to_classes p) = some y ↔
      List.lookup y (classes_to_int p) = some n) ∧
    classes_to_int [⟨"t1", "a"⟩, ⟨"t2", "b"⟩, ⟨"t3", "a"⟩] = [("a", 0), ("b", 1)] ∧
    int_to_classes [⟨"t1", "a"⟩, ⟨"t2", "b"⟩, ⟨"t3", "a"⟩] = [(0, "a"), (1, "b")] := by
  refine ⟨?_, ?_, ?_, ?_, ?_, ?_, ?_, ?_⟩
  · intro y
    rw [Option.isSome_iff_exists]
    constructor
    · rintro ⟨n, hn⟩
      rw [lookup_classes_to_int] at hn
      exact (mem_sortedClasses p y).mp (List.getElem?_mem hn)
    · intro hy
      obtain ⟨n, hn, hv⟩ := List.getElem_of_mem ((mem_sortedClasses p y).mpr hy)
      exact ⟨n, (lookup_classes_to_int p y n).mpr (by rw [List.getElem?_eq_getElem hn, hv])⟩
  · intro y n hn
    rw [lookup_classes_to_int] at hn
    exact (List.getElem?_eq_some.mp hn).1
  · intro y₁ y₂ n h1 h2
    rw [lookup_classes_to_int] at h1 h2
    rw [h1] at h2
    exact Option.some.inj h2
  · intro n hn
    exact ⟨(sortedClasses p)[n], (lookup_classes_to_int p _ n).mpr
      (List.getElem?_eq_getElem hn)⟩
  · intro y₁ y₂ n₁ n₂ h1 h2
    rw [lookup_classes_to_int] at h1 h2
    constructor
    · intro hy
      rcases Nat.lt_trichotomy n₁ n₂ with h | h | h
      · exact h
      · subst h
        rw [h1] at h2
        exact absurd (Option.some.inj h2) (ne_of_lt hy)
      · exact absurd (sortedClasses_lt_of_getElem p n₂ n₁ y₂ y₁ h2 h1 h)
          (not_lt_of_lt hy)
    · intro hn
      exact sortedClasses_lt_of_getElem p n₁ n₂ y₁ y₂ h1 h2 hn
  · intro y n
    rw [lookup_int_to_classes, lookup_classes_to_int]
  · exact classes_to_int_aba
  · exact int_to_classes_aba

/-- Witness for C2 at the training pipe with labels a, b, a: label a, mapped
to 0, is below label b, mapped to 1, in sorted order. -/
theorem c2_classes_to_int_bijection_witness :
    ("a" < "b" ↔ (0 : ℕ) < 1) :=
  (c2_classes_to_int_bijection
      [⟨"t1", "a"⟩, ⟨"t2", "b"⟩, ⟨"t3", "a"⟩]).2.2.2.2.1 "a" "b" 0 1
    (by rw [classes_to_int_aba]; decide)
    (by rw [classes_to_int_aba]; decide)

/-! ## C4: shard-filter partition -/

theorem enum_nodup {α : Type} (l : List α) : l.enum.Nodup := by
  have h : (l.enum.map Prod.fst).Nodup := by
    rw [List.enum_map_fst]
    exact List.nodup_range _
  exact List.Nodup.of_map Prod.fst h

/-- C4: the shard-filter stage routes each positioned element to exactly one
of the max(N,1) workers, the concatenation of all workers' outputs is a
permutation of the input (the multiset union equals the input multiset), and
with zero or one worker the stage is a pass-through leaving the sequence
unchanged. -/
theorem c4_sharding_filter_partition {α : Type} (l : List α) (N : ℕ) :
    (∀ i x, (i, x) ∈ l.enum →
      ∃! k, k < max N 1 ∧
        (i, x) ∈ l.enum.filter (fun p => p.1 % max N 1 == k)) ∧
    ((List.range (max N 1)).flatMap (fun k => sharding_filter N k l)).Perm l ∧
    (N ≤ 1 → sharding_filter N 0 l = l) := by
  have hn1 : 1 ≤ max N 1 := le_max_right N 1
  refine ⟨?_, ?_, ?_⟩
  · intro i x hmem
    refine ⟨i % max N 1, ⟨Nat.mod_lt i (by omega), ?_⟩, ?_⟩
    · rw [List.mem_filter]
      exact ⟨hmem, beq_self_eq_true _⟩
    · rintro k ⟨_, hk⟩
      rw [List.mem_filter] at hk
      exact (beq_iff_eq.mp hk.2).symm
  · have hnd : l.enum.Nodup := enum_nodup l
    have hJnd : ((List.range (max N 1)).flatMap
        (fun k => l.enum.filter (fun p => p.1 % max N 1 == k))).Nodup := by
      rw [List.nodup_flatMap]
      refine ⟨fun k _ => hnd.filter _, ?_⟩
      refine (List.pairwise_lt_range _).imp ?_
      intro k k' hkk' q hq hq'
      rw [List.mem_filter] at hq hq'
      have h1 := beq_iff_eq.mp hq.2
      have h2 := beq_iff_eq.mp hq'.2
      omega
    have hperm : ((List.range (max N 1)).flatMap
        (fun k => l.enum.filter (fun p => p.1 % max N 1 == k))).Perm l.enum := by
      rw [List.perm_ext_iff_of_nodup hJnd hnd]
      intro q
      rw [List.mem_flatMap]
      constructor
      · rintro ⟨k, _, hq⟩
        exact (List.mem_filter.mp hq).1
      · intro hq
        refine ⟨q.1 % max N 1, List.mem_range.mpr (Nat.mod_lt _ (by omega)), ?_⟩
        rw [List.mem_filter]
        exact ⟨hq, beq_self_eq_true _⟩
    have hmap : (List.range (max N 1)).flatMap (fun k => sharding_filter N k l) =
        ((List.range (max N 1)).flatMap
          (fun k => l.enum.filter (fun p => p.1 % max N 1 == k))).map Prod.snd := by
      rw [List.map_flatMap]
      rfl
    rw [hmap]
    have := hperm.map Prod.snd
    rwa [List.enum_map_snd] at this
  · intro hN
    have h1 : max N 1 = 1 := by omega
    rw [sharding_filter, h1]
    have hf : l.enum.filter (fun p => p.1 % 1 == 0) = l.enum :=
      List.filter_eq_self.mpr (fun p _ => by simp [Nat.mod_one])
    rw [hf, List.enum_map_snd]

/-- Witness for C4 at concrete instances: position 1 of a three-element list
with two workers is routed to exactly one worker, and one worker is a
pass-through. -/
theorem c4_sharding_filter_partition_witness :
    (∃! k, k < max 2 1 ∧
      ((1, (20 : ℤ)) ∈ ([10, 20, 30] : List ℤ).enum.filter
        (fun p => p.1 % max 2 1 == k))) ∧
    sharding_filter 1 0 ([5, 6] : List ℤ) = [5, 6] :=
  ⟨(c4_sharding_filter_partition ([10, 20, 30] : List ℤ) 2).1 1 20 (by decide),
   (c4_sharding_filter_partition ([5, 6] : List ℤ) 1).2.2 (by decide)⟩

/-! ## C3: composition order of the pipelines -/

/-- C3: the notebook's training pipeline applies, in this fixed order,
shuffle, then shard-filter, then the per-record map, and the evaluation
pipeline applies shard-filter then the per-record map with no shuffle stage:
both equal the spec's stated compositions on every input. -/
theorem c3_pipeline_composition_order (rng : ℕ → ℕ) (numWorkers workerId : ℕ)
    (tok : String → List ℕ) (MAX_LENGTH : ℕ)
    (train_data_pipe test_data_pipe : List Record) :
    get_train_dataset rng numWorkers workerId tok MAX_LENGTH train_data_pipe =
      specTrainPipeline rng numWorkers workerId tok MAX_LENGTH train_data_pipe
        train_data_pipe ∧
    get_test_dataset numWorkers workerId tok MAX_LENGTH train_data_pipe
        test_data_pipe =
      specTestPipeline numWorkers workerId tok MAX_LENGTH train_data_pipe
        test_data_pipe :=
  ⟨rfl, rfl⟩

/-! ## C8: failures in the per-record map -/

/-- C8: when unpack_row raises on a record, the map stage propagates exactly
that failure to the pipeline consumer and aborts the iteration: the records
before the failing one are processed, and the overall result is the error no
matter what records follow — no partial-result recovery, skip-and-continue,
or retry. -/
theorem c8_map_failure_propagates (tok : String → List ℕ) (p : List Record)
    (MAX_LENGTH : ℕ) (pre : List Record) (x : Record) (post : List Record)
    (e : PyError)
    (hpre : ∀ z ∈ pre, ∃ row, unpack_row tok p MAX_LENGTH z = .ok row)
    (hx : unpack_row tok p MAX_LENGTH x = .error e) :
    mapStage (unpack_row tok p MAX_LENGTH) (pre ++ x :: post) = .error e := by
  induction pre with
  | nil => simp [mapStage, hx]
  | cons z zs ih =>
    obtain ⟨row, hrow⟩ := hpre z (List.mem_cons_self _ _)
    have hzs := ih (fun w hw => hpre w (List.mem_cons_of_mem _ hw))
    simp [mapStage, hrow, hzs]

/-- Witness for C8 at a concrete instance: a record with the unseen language
zz aborts the mapped stream with a KeyError after one successful record. -/
theorem c8_map_failure_propagates_witness :
    mapStage (unpack_row (fun _ => []) [⟨"t1", "a"⟩] 4)
      ([⟨"u", "a"⟩] ++ ⟨"v", "zz"⟩ :: [⟨"w", "a"⟩]) =
      .error (.keyError "zz") :=
  c8_map_failure_propagates (fun _ => []) [⟨"t1", "a"⟩] 4 [⟨"u", "a"⟩]
    ⟨"v", "zz"⟩ [⟨"w", "a"⟩] (.keyError "zz")
    (by
      intro z hz
      rw [List.mem_singleton] at hz
      subst hz
      exact ⟨_, rfl⟩)
    rfl

/-! ## C10: shape and range invariants of unpack_row -/

theorem padTruncate_length (maxLen pad : ℕ) (ids : List ℕ) :
    (padTruncate maxLen pad ids).length = maxLen := by
  simp only [padTruncate, List.length_append, List.length_take, List.length_replicate]
  omega

/-- C10: for every record whose language is a key of classes_to_int,
unpack_row succeeds with a row whose input_ids, attention_mask and
token_type_ids all have length exactly MAX_LENGTH, and whose integer target
lies below the number of distinct training labels. -/
theorem c10_unpack_row_shapes (tok : String → List ℕ) (p : List Record)
    (MAX_LENGTH : ℕ) (x : Record)
    (hx : (List.lookup x.language (classes_to_int p)).isSome) :
    ∃ row, unpack_row tok p MAX_LENGTH x = .ok row ∧
      row.input_ids.length = MAX_LENGTH ∧
      row.attention_mask.length = MAX_LENGTH ∧
      row.token_type_ids.length = MAX_LENGTH ∧
      row.targets < (sortedClasses p).length ∧
      (sortedClasses p).length = ((p.map Record.language).dedup).length := by
  obtain ⟨t, ht⟩ := Option.isSome_iff_exists.mp hx
  have hb : t < (sortedClasses p).length :=
    (List.getElem?_eq_some.mp ((lookup_classes_to_int p x.language t).mp ht)).1
  have hlen : (sortedClasses p).length = ((p.map Record.language).dedup).length :=
    (List.perm_insertionSort _ _).length_eq
  have heq : unpack_row tok p MAX_LENGTH x =
      .ok { input_ids := padTruncate MAX_LENGTH 0 (tok x.translation),
            attention_mask :=
              padTruncate MAX_LENGTH 0 (List.replicate (tok x.translation).length 1),
            token_type_ids :=
              padTruncate MAX_LENGTH 0 (List.replicate (tok x.translation).length 0),
            targets := t } := by
    simp only [unpack_row, ht]
  exact ⟨_, heq, padTruncate_length _ _ _, padTruncate_length _ _ _,
    padTruncate_length _ _ _, hb, hlen⟩

/-- Witness for C10 at a concrete instance: the record with language b in the
pipe with labels a, b, a, tokenized with a two-token sequence padded to
length 4. -/
theorem c10_unpack_row_shapes_witness :
    ∃ row, unpack_row (fun _ => [5, 6]) [⟨"t1", "a"⟩, ⟨"t2", "b"⟩, ⟨"t3", "a"⟩] 4
        ⟨"hi", "b"⟩ = .ok row ∧
      row.input_ids.length = 4 ∧
      row.attention_mask.length = 4 ∧
      row.token_type_ids.length = 4 ∧
      row.targets < (sortedClasses [⟨"t1", "a"⟩, ⟨"t2", "b"⟩, ⟨"t3", "a"⟩]).length ∧
      (sortedClasses [⟨"t1", "a"⟩, ⟨"t2", "b"⟩, ⟨"t3", "a"⟩]).length =
        ((([⟨"t1", "a"⟩, ⟨"t2", "b"⟩, ⟨"t3", "a"⟩] : List Record).map
          Record.language).dedup).length :=
  c10_unpack_row_shapes (fun _ => [5, 6]) [⟨"t1", "a"⟩, ⟨"t2", "b"⟩, ⟨"t3", "a"⟩]
    4 ⟨"hi", "b"⟩ (by rw [classes_to_int_aba]; decide)

end Flores
